import Mathlib

/-! Pizza counter (`pizza.c`): embedding and verified properties.

The program runs six `bakePizza` threads (producers), one `deliverPizza`
thread (consumer), one `auto_shutdown` thread, and two signal handlers:
`qualityCheck` (SIGALRM) and `graceful_shutdown` (SIGTERM, SIGINT, SIGQUIT).

Embedding.

* The globals (`counter`, `shutdownFlag`, `supplierInformed`) form the record
  `Globals`.  C `int` values are unbounded integers: a step adds one to a
  counter, sets it to zero, or subtracts an amount smaller in size than the
  counter was when the amount was computed, and `qualityCheck` runs every five
  of the forty simulated seconds, so no run comes near the limits of `int`
  (where C gives signed overflow no defined behaviour anyway).  The two
  `sig_atomic_t` flags only ever hold 0 or 1 and are booleans.
* Every task is a step function `pc -> inputs -> Globals -> Option (...)`.
  A step is one lock-delimited region of the source, or one access to shared
  data outside any lock; the program counter names the source line the task
  has reached.  A step returns the new globals, the next program counter and
  the synchronisation operations it performed, in source order.  `none` means
  the task cannot move (blocked in `pthread_cond_wait`, or returned), or, for
  `qualityCheck`, that `%` had a zero divisor (no defined behaviour).
* Values of `rand()` are inputs of type `Nat` (it returns 0 .. RAND_MAX).
  `printf` and `sleep` have no effect on the modelled state and are left out;
  a `sleep` separates the steps before and after it.
* `Sys` puts the tasks together: an `Action` picks the task that moves next,
  so a list of actions is an interleaving.  Each handler invocation is a task
  of its own.
-/

namespace Pizza

/-! ## Constants (`#define`) -/

/-- Capacity of the pizza counter, line 8. -/
def COUNTER_MAX_CAPACITY : Int := 30

/-- Total at which the supplier is informed, line 9. -/
def SUPPLIER_TRIGGER_THRESHOLD : Int := 20

/-- Number of `bakePizza` threads, line 10. -/
def PIZZAIOLO_COUNT : Nat := 6

/-- Seconds after which `auto_shutdown` ends the run, line 11. -/
def SIMULATION_DURATION : Int := 40

/-! ## Data model -/

/-- The three mutexes: `counter.mutex`, `supplier_mutex`, `pizzaiolo_mutex`. -/
inductive Mutex where
  | counter_mutex
  | supplier_mutex
  | pizzaiolo_mutex
  deriving DecidableEq

/-- The two condition variables. -/
inductive CondVar where
  | supplier_cond
  | pizzaiolo_cond
  deriving DecidableEq

/-- Synchronisation operations and flag writes, as a task performs them. -/
inductive Event where
  /-- Call `pthread_mutex_lock`. -/
  | lock (m : Mutex)
  /-- Call `pthread_mutex_unlock`. -/
  | unlock (m : Mutex)
  /-- Entry of `pthread_cond_wait`: the mutex is released, the caller blocks. -/
  | waitBegin (c : CondVar) (m : Mutex)
  /-- Return of `pthread_cond_wait`: the mutex is held again. -/
  | waitEnd (c : CondVar) (m : Mutex)
  /-- Call `pthread_cond_signal`. -/
  | signal (c : CondVar)
  /-- Call `pthread_cond_broadcast`. -/
  | broadcast (c : CondVar)
  /-- The assignment `shutdownFlag = 1`. -/
  | setShutdownFlag
  /-- An assignment to `supplierInformed`. -/
  | setSupplierInformed (v : Bool)
  /-- Call `alarm`. -/
  | alarm (seconds : Nat)
  /-- Another library call of `main`, by name and argument. -/
  | call (name : String)
  deriving DecidableEq

/-- The struct `counter_t` of lines 13-17, without its mutex. -/
structure counter_t where
  countMargherita : Int
  countMarinara : Int
  deriving DecidableEq

/-- The global variables of lines 26-29. -/
structure Globals where
  counter : counter_t
  shutdownFlag : Bool
  supplierInformed : Bool
  deriving DecidableEq

/-- The C operator `%` on `int`: truncated remainder, undefined for divisor 0. -/
def cRem (a b : Int) : Option Int :=
  if b = 0 then none else some (Int.tmod a b)

/-! ## `bakePizza`, lines 32-73 -/

/-- Program points of a `bakePizza` thread. -/
inductive BakePC where
  /-- Line 33, the test of `while (!shutdownFlag)`. -/
  | loopHead
  /-- Line 37, about to lock `counter.mutex`; `pizzaType` was drawn at line 34. -/
  | critical (pizzaType : Int)
  /-- Lines 61-63, after the unlock of the else branch. -/
  | counterFull
  /-- Line 65, blocked in `pthread_cond_wait`. -/
  | waiting
  /-- Line 65, woken: `pthread_cond_wait` is about to return. -/
  | woken
  /-- Lines 71-72, the thread has left its loop. -/
  | finished
  deriving DecidableEq

/-- One step of `bakePizza`.  `rnd` is the value `rand()` returns at line 34.
The test of line 64 reads both counters under `pizzaiolo_mutex` only; the two
reads are taken as one. -/
def bakePizza (pc : BakePC) (rnd : Nat) (g : Globals) :
    Option (Globals × BakePC × List Event) :=
  match pc with
  | .loopHead =>
    if g.shutdownFlag then some (g, .finished, [])
    else some (g, .critical (Int.tmod (rnd : Int) 2), [])
  | .critical pizzaType =>
    if g.counter.countMargherita + g.counter.countMarinara < COUNTER_MAX_CAPACITY then
      let c : counter_t :=
        if pizzaType = 0 then { g.counter with countMargherita := g.counter.countMargherita + 1 }
        else { g.counter with countMarinara := g.counter.countMarinara + 1 }
      if c.countMargherita + c.countMarinara ≥ SUPPLIER_TRIGGER_THRESHOLD then
        if g.supplierInformed = false then
          some ({ g with counter := c, supplierInformed := true }, .loopHead,
            [.lock .counter_mutex, .lock .supplier_mutex, .signal .supplier_cond,
             .setSupplierInformed true, .unlock .supplier_mutex, .unlock .counter_mutex])
        else
          some ({ g with counter := c }, .loopHead,
            [.lock .counter_mutex, .lock .supplier_mutex, .unlock .supplier_mutex,
             .unlock .counter_mutex])
      else
        some ({ g with counter := c }, .loopHead, [.lock .counter_mutex, .unlock .counter_mutex])
    else
      some (g, .counterFull, [.lock .counter_mutex, .unlock .counter_mutex])
  | .counterFull =>
    if g.counter.countMargherita + g.counter.countMarinara ≥ COUNTER_MAX_CAPACITY then
      some (g, .waiting, [.lock .pizzaiolo_mutex, .waitBegin .pizzaiolo_cond .pizzaiolo_mutex])
    else
      some (g, .loopHead, [.lock .pizzaiolo_mutex, .unlock .pizzaiolo_mutex])
  | .waiting => none
  | .woken =>
    if g.counter.countMargherita + g.counter.countMarinara ≥ COUNTER_MAX_CAPACITY then
      some (g, .waiting,
        [.waitEnd .pizzaiolo_cond .pizzaiolo_mutex, .waitBegin .pizzaiolo_cond .pizzaiolo_mutex])
    else
      some (g, .loopHead, [.waitEnd .pizzaiolo_cond .pizzaiolo_mutex, .unlock .pizzaiolo_mutex])
  | .finished => none

/-! ## `deliverPizza`, lines 76-103 -/

/-- Program points of the `deliverPizza` thread. -/
inductive DeliverPC where
  /-- Line 77, the test of `while (!shutdownFlag)`. -/
  | loopHead
  /-- Lines 79-80, inside the loop, about to lock `supplier_mutex`. -/
  | enter
  /-- Line 81, blocked in `pthread_cond_wait`. -/
  | waiting
  /-- Line 81, woken: `pthread_cond_wait` is about to return. -/
  | woken
  /-- Line 85, after the unlock, at the test `if (!shutdownFlag)`. -/
  | called
  /-- Lines 87-90, inside the if, before `counter.mutex` is locked. -/
  | pickup
  /-- Line 94, before `supplierInformed = 0`. -/
  | reset
  /-- Line 96, before the broadcast. -/
  | release
  /-- Lines 101-102, the thread has left its loop. -/
  | finished
  deriving DecidableEq

/-- One step of `deliverPizza`. -/
def deliverPizza (pc : DeliverPC) (g : Globals) : Option (Globals × DeliverPC × List Event) :=
  match pc with
  | .loopHead =>
    if g.shutdownFlag then some (g, .finished, []) else some (g, .enter, [])
  | .enter =>
    some (g, .waiting, [.lock .supplier_mutex, .waitBegin .supplier_cond .supplier_mutex])
  | .waiting => none
  | .woken =>
    some (g, .called, [.waitEnd .supplier_cond .supplier_mutex, .unlock .supplier_mutex])
  | .called =>
    if !g.shutdownFlag then some (g, .pickup, []) else some (g, .loopHead, [])
  | .pickup =>
    some ({ g with counter := { countMargherita := 0, countMarinara := 0 } }, .reset,
      [.lock .counter_mutex, .unlock .counter_mutex])
  | .reset =>
    some ({ g with supplierInformed := false }, .release, [.setSupplierInformed false])
  | .release =>
    some (g, .loopHead,
      [.lock .pizzaiolo_mutex, .broadcast .pizzaiolo_cond, .unlock .pizzaiolo_mutex])
  | .finished => none

/-! ## `qualityCheck`, lines 106-123 -/

/-- Program points of one invocation of the SIGALRM handler `qualityCheck`. -/
inductive QualityPC where
  /-- Line 108, entry of the handler. -/
  | entry
  /-- Line 109, `countMargheritaToRemove` has been computed. -/
  | sampledMargherita (countMargheritaToRemove : Int)
  /-- Line 111, both amounts have been computed, before the lock. -/
  | sampled (countMargheritaToRemove countMarinaraToRemove : Int)
  /-- Line 119, after the subtraction, before the broadcast. -/
  | subtracted (countMargheritaToRemove countMarinaraToRemove : Int)
  /-- Line 123, the handler has returned. -/
  | returned
  deriving DecidableEq

/-- One step of `qualityCheck`.  `rnd` is the value `rand()` returns in the step. -/
def qualityCheck (pc : QualityPC) (rnd : Nat) (g : Globals) :
    Option (Globals × QualityPC × List Event) :=
  match pc with
  | .entry =>
    (cRem (rnd : Int) (g.counter.countMargherita + 1)).map
      fun r => (g, .sampledMargherita r, [])
  | .sampledMargherita m =>
    (cRem (rnd : Int) (g.counter.countMarinara + 1)).map
      fun r => (g, .sampled m r, [])
  | .sampled m n =>
    some ({ g with counter :=
              { countMargherita := g.counter.countMargherita - m,
                countMarinara := g.counter.countMarinara - n } },
          .subtracted m n, [.lock .counter_mutex, .unlock .counter_mutex])
  | .subtracted _ _ =>
    some (g, .returned,
      [.lock .pizzaiolo_mutex, .broadcast .pizzaiolo_cond, .unlock .pizzaiolo_mutex, .alarm 5])
  | .returned => none

/-! ## `graceful_shutdown`, lines 126-137, and `auto_shutdown`, lines 140-150 -/

/-- Program points of one invocation of `graceful_shutdown`. -/
inductive ShutdownPC where
  /-- Line 128, before `shutdownFlag = 1`. -/
  | entry
  /-- Line 130, before the broadcast on `pizzaiolo_cond`. -/
  | wakePizzaioli
  /-- Line 134, before the broadcast on `supplier_cond`. -/
  | wakeSupplier
  /-- Line 137, the function has returned. -/
  | returned
  deriving DecidableEq

/-- One step of `graceful_shutdown`. -/
def graceful_shutdown (pc : ShutdownPC) (g : Globals) :
    Option (Globals × ShutdownPC × List Event) :=
  match pc with
  | .entry => some ({ g with shutdownFlag := true }, .wakePizzaioli, [.setShutdownFlag])
  | .wakePizzaioli =>
    some (g, .wakeSupplier,
      [.lock .pizzaiolo_mutex, .broadcast .pizzaiolo_cond, .unlock .pizzaiolo_mutex])
  | .wakeSupplier =>
    some (g, .returned,
      [.lock .supplier_mutex, .broadcast .supplier_cond, .unlock .supplier_mutex])
  | .returned => none

/-- A whole call of `graceful_shutdown` that nothing interrupts: its three
steps in a row. -/
def gracefulShutdownCall (g : Globals) : Option (Globals × List Event) := do
  let (g1, pc1, e1) ← graceful_shutdown .entry g
  let (g2, pc2, e2) ← graceful_shutdown pc1 g1
  let (g3, _, e3) ← graceful_shutdown pc2 g2
  pure (g3, e1 ++ e2 ++ e3)

/-- Program points of the `auto_shutdown` thread. -/
inductive AutoPC where
  /-- Line 142, the test of `while (timer > 0)`, with the value of `timer`. -/
  | timing (timer : Int)
  /-- Line 148, inside the call `graceful_shutdown(0)`. -/
  | shuttingDown (pc : ShutdownPC)
  /-- The thread has returned (line 146 or line 149). -/
  | returned
  deriving DecidableEq

/-- One step of `auto_shutdown`: one turn of its loop, or one step of the
call of `graceful_shutdown` that follows the loop. -/
def auto_shutdown (pc : AutoPC) (g : Globals) : Option (Globals × AutoPC × List Event) :=
  match pc with
  | .timing timer =>
    if timer > 0 then
      if g.shutdownFlag then some (g, .returned, [])
      else some (g, .timing (timer - 1), [])
    else some (g, .shuttingDown .entry, [])
  | .shuttingDown pc =>
    match graceful_shutdown pc g with
    | some (g1, pc1, e) =>
      some (g1, if pc1 = .returned then .returned else .shuttingDown pc1, e)
    | none => none
  | .returned => none

/-! ## The whole program: interleavings of the tasks -/

/-- The state of a run: the globals and the program point of every task.
`quality = .returned` means that no `qualityCheck` invocation is running and
the alarm is armed (by line 236 or line 122).  `handlers` are the invocations
of `graceful_shutdown` as a signal handler. -/
structure Sys where
  g : Globals
  pizzaioli : List BakePC
  supplier : DeliverPC
  quality : QualityPC
  timer : AutoPC
  handlers : List ShutdownPC
  deriving DecidableEq

/-- The state `main` sets up (lines 153-236): the globals are zero-initialised,
six `bakePizza` threads, the `deliverPizza` thread and the `auto_shutdown`
thread are at their entry, the alarm is armed. -/
def init : Sys :=
  { g := { counter := { countMargherita := 0, countMarinara := 0 },
           shutdownFlag := false, supplierInformed := false }
    pizzaioli := List.replicate PIZZAIOLO_COUNT .loopHead
    supplier := .loopHead
    quality := .returned
    timer := .timing SIMULATION_DURATION
    handlers := [] }

/-- What moves next in a run. -/
inductive Action where
  /-- The `bakePizza` thread number `i` takes a step; `rnd` is its `rand()`. -/
  | bake (i : Nat) (rnd : Nat)
  /-- The `deliverPizza` thread takes a step. -/
  | deliver
  /-- SIGALRM is delivered: an invocation of `qualityCheck` starts. -/
  | sigalrm
  /-- The running `qualityCheck` invocation takes a step; `rnd` is its `rand()`. -/
  | quality (rnd : Nat)
  /-- The `auto_shutdown` thread takes a step. -/
  | tick
  /-- SIGTERM, SIGINT or SIGQUIT is delivered: a `graceful_shutdown` invocation starts. -/
  | sigterm
  /-- The `graceful_shutdown` invocation number `i` takes a step. -/
  | handler (i : Nat)
  /-- The wait of `bakePizza` thread `i` ends without a broadcast (spurious wakeup). -/
  | spuriousPizzaiolo (i : Nat)
  /-- The wait of `deliverPizza` ends without a signal (spurious wakeup). -/
  | spuriousSupplier
  deriving DecidableEq

/-- A `bakePizza` thread blocked on `pizzaiolo_cond` is woken. -/
def wakePizzaiolo (pc : BakePC) : BakePC :=
  if pc = .waiting then .woken else pc

/-- The `deliverPizza` thread blocked on `supplier_cond` is woken. -/
def wakeSupplier (pc : DeliverPC) : DeliverPC :=
  if pc = .waiting then .woken else pc

/-- The effect of the operations `es` of a step on the waiting threads: a
broadcast on `pizzaiolo_cond` wakes every `bakePizza` thread blocked on it, a
signal or broadcast on `supplier_cond` wakes `deliverPizza` if it is blocked. -/
def notify (es : List Event) (s : Sys) : Sys :=
  { s with
    pizzaioli :=
      if Event.broadcast .pizzaiolo_cond ∈ es then s.pizzaioli.map wakePizzaiolo
      else s.pizzaioli
    supplier :=
      if Event.signal .supplier_cond ∈ es ∨ Event.broadcast .supplier_cond ∈ es then
        wakeSupplier s.supplier
      else s.supplier }

/-- One step of the program.  `none`: the action is not possible in `s`. -/
def step (a : Action) (s : Sys) : Option (Sys × List Event) :=
  match a with
  | .bake i rnd =>
    match s.pizzaioli[i]? with
    | none => none
    | some pc =>
      match bakePizza pc rnd s.g with
      | none => none
      | some (g1, pc1, es) =>
        some (notify es { s with g := g1, pizzaioli := s.pizzaioli.set i pc1 }, es)
  | .deliver =>
    match deliverPizza s.supplier s.g with
    | none => none
    | some (g1, pc1, es) => some (notify es { s with g := g1, supplier := pc1 }, es)
  | .sigalrm =>
    if s.quality = .returned then some ({ s with quality := .entry }, []) else none
  | .quality rnd =>
    match qualityCheck s.quality rnd s.g with
    | none => none
    | some (g1, pc1, es) => some (notify es { s with g := g1, quality := pc1 }, es)
  | .tick =>
    match auto_shutdown s.timer s.g with
    | none => none
    | some (g1, pc1, es) => some (notify es { s with g := g1, timer := pc1 }, es)
  | .sigterm => some ({ s with handlers := s.handlers ++ [.entry] }, [])
  | .handler i =>
    match s.handlers[i]? with
    | none => none
    | some pc =>
      match graceful_shutdown pc s.g with
      | none => none
      | some (g1, pc1, es) =>
        some (notify es { s with g := g1, handlers := s.handlers.set i pc1 }, es)
  | .spuriousPizzaiolo i =>
    match s.pizzaioli[i]? with
    | some .waiting => some ({ s with pizzaioli := s.pizzaioli.set i .woken }, [])
    | _ => none
  | .spuriousSupplier =>
    if s.supplier = .waiting then some ({ s with supplier := .woken }, []) else none

/-- A run: the actions of `as` one after the other.  The result is the state
reached and all operations performed, in order. -/
def exec : List Action → Sys → Option (Sys × List Event)
  | [], s => some (s, [])
  | a :: as, s =>
    match step a s with
    | none => none
    | some (s1, e1) =>
      match exec as s1 with
      | none => none
      | some (s2, e2) => some (s2, e1 ++ e2)

/-- The states of the program: those a run from `init` reaches. -/
def Reachable (s : Sys) : Prop :=
  ∃ as es, exec as init = some (s, es)

/-- Number of `pthread_cond_signal` calls on `supplier_cond` among `es`. -/
def supplierSignals (es : List Event) : Nat :=
  es.count (.signal .supplier_cond)

/-- The total on the counter, `counter.countMargherita + counter.countMarinara`. -/
def total (g : Globals) : Int :=
  g.counter.countMargherita + g.counter.countMarinara

/-- The amounts a running `qualityCheck` invocation has computed are not
negative. -/
def amountsNonneg : QualityPC → Prop
  | .sampledMargherita m => 0 ≤ m
  | .sampled m n => 0 ≤ m ∧ 0 ≤ n
  | _ => True

/-- The `deliverPizza` thread takes `n` steps in a row, nothing in between. -/
def deliverPizzaSteps : Nat → DeliverPC → Globals → Option (Globals × DeliverPC × List Event)
  | 0, pc, g => some (g, pc, [])
  | n + 1, pc, g =>
    match deliverPizza pc g with
    | none => none
    | some (g1, pc1, e1) =>
      match deliverPizzaSteps n pc1 g1 with
      | none => none
      | some (g2, pc2, e2) => some (g2, pc2, e1 ++ e2)

/-! ## `main`, lines 153-260 -/

/-- The mutex an operation acquires, if it acquires one. -/
def acquired : Event → Option Mutex
  | .lock m => some m
  | .waitEnd _ m => some m
  | _ => none

/-- The locks a task holds after the operation `e`, given those held before. -/
def heldAfter (held : List Mutex) : Event → List Mutex
  | .lock m => m :: held
  | .waitEnd _ m => m :: held
  | .unlock m => held.erase m
  | .waitBegin _ m => held.erase m
  | _ => held

/-- The locks held after all of `es`. -/
def heldFinal (held : List Mutex) (es : List Event) : List Mutex :=
  es.foldl heldAfter held

/-- Every operation of `es` with the locks the task holds right after it. -/
def heldPoints (held : List Mutex) : List Event → List (Event × List Mutex)
  | [] => []
  | e :: es => (e, heldAfter held e) :: heldPoints (heldAfter held e) es

/-- The pairs `(a, b)` such that, somewhere in `es`, the task acquires `b`
while it holds `a`. -/
def nestings (held : List Mutex) : List Event → List (Mutex × Mutex)
  | [] => []
  | e :: es =>
    (match acquired e with
     | some m => held.map fun a => (a, m)
     | none => []) ++ nestings (heldAfter held e) es

/-- The operations of one task from program point `pc` on, over any number of
its steps.  The other tasks run in between: at each step the task sees the
globals `g` they left, whatever these are, and a blocked task moves again
once it has been woken (`wake`). -/
def taskTrace {PC : Type} (step : PC → Nat → Globals → Option (Globals × PC × List Event))
    (wake : PC → PC) : PC → List (Nat × Globals) → List Event
  | _, [] => []
  | pc, (rnd, g) :: rest =>
    match step (wake pc) rnd g with
    | none => []
    | some (_, pc1, es) => es ++ taskTrace step wake pc1 rest

/-- The operations of a `bakePizza` thread from its entry. -/
def bakePizzaTrace (inputs : List (Nat × Globals)) : List Event :=
  taskTrace bakePizza wakePizzaiolo .loopHead inputs

/-- The operations of the `deliverPizza` thread from its entry. -/
def deliverPizzaTrace (inputs : List (Nat × Globals)) : List Event :=
  taskTrace (fun pc _ g => deliverPizza pc g) wakeSupplier .loopHead inputs

/-- The operations of a `qualityCheck` invocation from its entry. -/
def qualityCheckTrace (inputs : List (Nat × Globals)) : List Event :=
  taskTrace qualityCheck id .entry inputs

/-- The operations of a `graceful_shutdown` invocation from its entry. -/
def gracefulShutdownTrace (inputs : List (Nat × Globals)) : List Event :=
  taskTrace (fun pc _ g => graceful_shutdown pc g) id .entry inputs

/-- The acquired-while-holding relation of the program: some path of
`bakePizza`, `deliverPizza`, `qualityCheck` or `graceful_shutdown` acquires
`b` while holding `a`. -/
def AcquiredWhileHolding (a b : Mutex) : Prop :=
  ∃ inputs, (a, b) ∈ nestings [] (bakePizzaTrace inputs) ∨
    (a, b) ∈ nestings [] (deliverPizzaTrace inputs) ∨
    (a, b) ∈ nestings [] (qualityCheckTrace inputs) ∨
    (a, b) ∈ nestings [] (gracefulShutdownTrace inputs)

/-! ## Concrete runs -/

/-- Thread `i` passes its loop head (drawing `rnd`) and its locked region. -/
def bakeOne (i rnd : Nat) : List Action :=
  [.bake i rnd, .bake i rnd]

/-- Each of the six `bakePizza` threads goes once round its loop, drawing `rnd`. -/
def bakeRound (rnd : Nat) : List Action :=
  bakeOne 0 rnd ++ bakeOne 1 rnd ++ bakeOne 2 rnd ++ bakeOne 3 rnd ++ bakeOne 4 rnd ++
    bakeOne 5 rnd

/-- The supplier starts to wait, twenty Margherita are placed (the twentieth
signals), the supplier returns from its wait and passes the test of line 85. -/
def fillRun : List Action :=
  [.deliver, .deliver] ++ bakeRound 0 ++ bakeRound 0 ++ bakeRound 0 ++ bakeOne 0 0 ++ bakeOne 1 0 ++
    [.deliver, .deliver]

/-- After `fillRun`, SIGALRM arrives: `qualityCheck` computes the amounts 20
and 0 from the counter (lines 108-109); before it locks, the supplier empties
the counter (lines 90-93); then `qualityCheck` subtracts (lines 111-114). -/
def raceRun : List Action :=
  fillRun ++ [.sigalrm, .quality 20, .quality 0, .deliver, .quality 0]

/-- The `qualityCheck` invocation of `raceRun` to its end: after the subtraction
it broadcasts, re-arms the alarm and returns (lines 119-123). -/
def interleavedCheckRun : List Action :=
  raceRun ++ [.quality 0]

/-- The four steps of one `qualityCheck` invocation with no step of another
task in between; `rnd1` and `rnd2` are the values of `rand()` at lines 108 and
109. -/
def uninterruptedCheck (rnd1 rnd2 : Nat) : List Action :=
  [.quality rnd1, .quality rnd2, .quality 0, .quality 0]

/-- After `fillRun`, with the supplier in its `sleep` of line 87, ten more
pizzas fill the counter, thread 1 finds it full and waits (lines 60-65), and a
termination signal runs `graceful_shutdown` up to its first broadcast. -/
def shutdownRun : List Action :=
  fillRun ++ bakeOne 2 0 ++ bakeOne 3 0 ++ bakeOne 4 0 ++ bakeOne 5 0 ++ bakeRound 0 ++
    [.bake 1 0, .bake 1 0, .bake 1 0, .sigterm, .handler 0, .handler 0]

/-- The supplier starts to wait, five Margherita and three Marinara are placed
(total 8, no signal), and the wait of the supplier ends spuriously. -/
def spuriousRun : List Action :=
  [.deliver, .deliver] ++ bakeOne 0 0 ++ bakeOne 1 0 ++ bakeOne 2 0 ++ bakeOne 3 0 ++ bakeOne 4 0 ++
    bakeOne 0 1 ++ bakeOne 1 1 ++ bakeOne 2 1 ++ [.spuriousSupplier]

/-- Nineteen Margherita are on the counter, the supplier waits, and thread 1
is about to enter its locked region with the twentieth. -/
def beforeSignalRun : List Action :=
  [.deliver, .deliver] ++ bakeRound 0 ++ bakeRound 0 ++ bakeRound 0 ++ bakeOne 0 0 ++ [.bake 1 0]

/-- The state `beforeSignalRun` reaches. -/
def beforeSignal : Sys :=
  { g := { counter := { countMargherita := 19, countMarinara := 0 },
           shutdownFlag := false, supplierInformed := false }
    pizzaioli := [.loopHead, .critical 0, .loopHead, .loopHead, .loopHead, .loopHead]
    supplier := .waiting
    quality := .returned
    timer := .timing SIMULATION_DURATION
    handlers := [] }

/-- The state after thread 1 has placed the twentieth pizza and signalled. -/
def afterSignal : Sys :=
  { g := { counter := { countMargherita := 20, countMarinara := 0 },
           shutdownFlag := false, supplierInformed := true }
    pizzaioli := List.replicate PIZZAIOLO_COUNT .loopHead
    supplier := .woken
    quality := .returned
    timer := .timing SIMULATION_DURATION
    handlers := [] }

/-- After the signal: thread 2 adds a pizza, the supplier returns from its
wait and passes line 85, thread 3 adds a pizza, the supplier empties the
counter.  Its next step would clear `supplierInformed`. -/
def epochRun : List Action :=
  bakeOne 2 0 ++ [.deliver, .deliver] ++ bakeOne 3 0 ++ [.deliver]

/-! ## The locked region of `bakePizza` -/

/-- The locked region of `bakePizza` when the counter has room: the counter of
the drawn kind grows by one, the supplier is signalled when the new total
reaches the threshold and `supplierInformed` was clear, and the thread returns
to its loop head. -/
theorem bake_critical_accepted (g : Globals) (pizzaType : Int) (rnd : Nat)
    (h : total g < COUNTER_MAX_CAPACITY) :
    bakePizza (.critical pizzaType) rnd g =
      some ({ counter :=
                { countMargherita := g.counter.countMargherita + (if pizzaType = 0 then 1 else 0)
                  countMarinara := g.counter.countMarinara + (if pizzaType = 0 then 0 else 1) }
              shutdownFlag := g.shutdownFlag
              supplierInformed :=
                g.supplierInformed || decide (SUPPLIER_TRIGGER_THRESHOLD ≤ total g + 1) },
            .loopHead,
            if SUPPLIER_TRIGGER_THRESHOLD ≤ total g + 1 then
              if g.supplierInformed = false then
                [.lock .counter_mutex, .lock .supplier_mutex, .signal .supplier_cond,
                 .setSupplierInformed true, .unlock .supplier_mutex, .unlock .counter_mutex]
              else
                [.lock .counter_mutex, .lock .supplier_mutex, .unlock .supplier_mutex,
                 .unlock .counter_mutex]
            else [.lock .counter_mutex, .unlock .counter_mutex]) := by
  obtain ⟨⟨cm, cn⟩, sd, si⟩ := g
  simp only [total] at h
  simp only [bakePizza, h, if_true, total]
  by_cases hp : pizzaType = 0
  · simp only [hp, if_true, add_zero]
    by_cases ht : SUPPLIER_TRIGGER_THRESHOLD ≤ cm + cn + 1
    · have ht2 : cm + 1 + cn ≥ SUPPLIER_TRIGGER_THRESHOLD := by omega
      cases si <;> simp [ht, ht2]
    · have ht2 : ¬ cm + 1 + cn ≥ SUPPLIER_TRIGGER_THRESHOLD := by omega
      cases si <;> simp [ht, ht2]
  · simp only [hp, if_false, add_zero]
    by_cases ht : SUPPLIER_TRIGGER_THRESHOLD ≤ cm + cn + 1
    · have ht2 : cm + (cn + 1) ≥ SUPPLIER_TRIGGER_THRESHOLD := by omega
      cases si <;> simp [ht, ht2]
    · have ht2 : ¬ cm + (cn + 1) ≥ SUPPLIER_TRIGGER_THRESHOLD := by omega
      cases si <;> simp [ht, ht2]

/-- The locked region of `bakePizza` when the counter is full: nothing changes
and the thread goes on to wait. -/
theorem bake_critical_rejected (g : Globals) (pizzaType : Int) (rnd : Nat)
    (h : ¬ total g < COUNTER_MAX_CAPACITY) :
    bakePizza (.critical pizzaType) rnd g
      = some (g, .counterFull, [.lock .counter_mutex, .unlock .counter_mutex]) := by
  simp only [total] at h
  simp [bakePizza, h]

/-- An accepted add raises the total by exactly one. -/
theorem bake_critical_total (g : Globals) (pizzaType : Int) (rnd : Nat)
    (h : total g < COUNTER_MAX_CAPACITY) :
    ∃ g1 es, bakePizza (.critical pizzaType) rnd g = some (g1, .loopHead, es) ∧
      total g1 = total g + 1 := by
  have he := bake_critical_accepted g pizzaType rnd h
  refine ⟨_, _, he, ?_⟩
  simp only [total]
  split_ifs <;> omega

/-- For a non-negative dividend and a divisor `b + 1` with `b` non-negative, `%` is
defined and its value lies between 0 and `b`. -/
theorem cRem_of_nonneg (a : Nat) (b : Int) (hb : 0 ≤ b) :
    ∃ r, cRem (a : Int) (b + 1) = some r ∧ 0 ≤ r ∧ r ≤ b := by
  have hpos : 0 < b + 1 := by omega
  refine ⟨Int.tmod a (b + 1), ?_, ?_, ?_⟩
  · simp [cRem]; omega
  · exact Int.tmod_nonneg _ (Int.ofNat_nonneg a)
  · have := Int.tmod_lt_of_pos (a : Int) hpos
    omega

/-! ## Flags and signals, step by step -/

/-- A step of `bakePizza` leaves `shutdownFlag` alone, never clears
`supplierInformed`, and signals `supplier_cond` exactly when it sets
`supplierInformed`. -/
theorem bakePizza_effect (pc : BakePC) (rnd : Nat) (g g1 : Globals) (pc1 : BakePC)
    (es : List Event) (h : bakePizza pc rnd g = some (g1, pc1, es)) :
    g1.shutdownFlag = g.shutdownFlag ∧
    (g.supplierInformed = true → g1.supplierInformed = true) ∧
    supplierSignals es
      = (if g.supplierInformed = false ∧ g1.supplierInformed = true then 1 else 0) := by
  obtain ⟨c, sd, si⟩ := g
  cases pc <;> simp only [bakePizza] at h
  all_goals (try split_ifs at h)
  all_goals (try cases h)
  all_goals (try simp_all [supplierSignals])

/-- A step of `deliverPizza` leaves `shutdownFlag` alone, changes
`supplierInformed` only at line 94, never sets it, and issues no signal. -/
theorem deliverPizza_effect (pc : DeliverPC) (g g1 : Globals) (pc1 : DeliverPC)
    (es : List Event) (h : deliverPizza pc g = some (g1, pc1, es)) :
    g1.shutdownFlag = g.shutdownFlag ∧
    (pc ≠ .reset → g1.supplierInformed = g.supplierInformed) ∧
    (g1.supplierInformed = true → g.supplierInformed = true) ∧
    supplierSignals es = 0 := by
  obtain ⟨c, sd, si⟩ := g
  cases pc <;> simp only [deliverPizza] at h
  all_goals (try split_ifs at h)
  all_goals (try cases h)
  all_goals (try simp_all [supplierSignals])

/-- A step of `qualityCheck` leaves both flags alone and issues no signal. -/
theorem qualityCheck_effect (pc : QualityPC) (rnd : Nat) (g g1 : Globals) (pc1 : QualityPC)
    (es : List Event) (h : qualityCheck pc rnd g = some (g1, pc1, es)) :
    g1.shutdownFlag = g.shutdownFlag ∧ g1.supplierInformed = g.supplierInformed ∧
    supplierSignals es = 0 := by
  obtain ⟨c, sd, si⟩ := g
  cases pc <;> simp only [qualityCheck, Option.map_eq_some'] at h
  all_goals (try obtain ⟨r, _, h⟩ := h)
  all_goals (try cases h)
  all_goals (try simp_all [supplierSignals])

/-- A step of `graceful_shutdown` never clears `shutdownFlag`, leaves
`supplierInformed` and the counter alone, and issues no signal (it broadcasts). -/
theorem graceful_shutdown_effect (pc : ShutdownPC) (g g1 : Globals) (pc1 : ShutdownPC)
    (es : List Event) (h : graceful_shutdown pc g = some (g1, pc1, es)) :
    (g.shutdownFlag = true → g1.shutdownFlag = true) ∧
    g1.supplierInformed = g.supplierInformed ∧ g1.counter = g.counter ∧
    supplierSignals es = 0 := by
  obtain ⟨c, sd, si⟩ := g
  cases pc <;> simp only [graceful_shutdown] at h
  all_goals (try cases h)
  all_goals (try simp_all [supplierSignals])

/-- A step of `auto_shutdown` never clears `shutdownFlag`, leaves
`supplierInformed` and the counter alone, and issues no signal. -/
theorem auto_shutdown_effect (pc : AutoPC) (g g1 : Globals) (pc1 : AutoPC)
    (es : List Event) (h : auto_shutdown pc g = some (g1, pc1, es)) :
    (g.shutdownFlag = true → g1.shutdownFlag = true) ∧
    g1.supplierInformed = g.supplierInformed ∧ g1.counter = g.counter ∧
    supplierSignals es = 0 := by
  cases pc with
  | timing t =>
    simp only [auto_shutdown] at h
    split_ifs at h <;> cases h <;> simp [supplierSignals]
  | shuttingDown p =>
    simp only [auto_shutdown] at h
    cases hg : graceful_shutdown p g with
    | none => simp [hg] at h
    | some r =>
      obtain ⟨g2, p2, e2⟩ := r
      simp only [hg, Option.some.injEq, Prod.mk.injEq] at h
      obtain ⟨rfl, _, rfl⟩ := h
      exact graceful_shutdown_effect p g g2 p2 e2 hg
  | returned => simp [auto_shutdown] at h

/-- Waking threads does not touch the globals. -/
theorem notify_g (es : List Event) (s : Sys) : (notify es s).g = s.g := rfl

/-- Every step of the program: it never clears `shutdownFlag`; only line 94 of
`deliverPizza` clears `supplierInformed`; and it issues one signal on
`supplier_cond` when it sets `supplierInformed`, none otherwise. -/
theorem step_flags (a : Action) (s s1 : Sys) (es : List Event)
    (h : step a s = some (s1, es)) :
    (s.g.shutdownFlag = true → s1.g.shutdownFlag = true) ∧
    (s.g.supplierInformed = true → s1.g.supplierInformed = false →
      a = .deliver ∧ s.supplier = .reset) ∧
    supplierSignals es
      = (if s.g.supplierInformed = false ∧ s1.g.supplierInformed = true then 1 else 0) := by
  cases a with
  | bake i rnd =>
    simp only [step] at h
    cases hp : s.pizzaioli[i]? with
    | none => simp [hp] at h
    | some pc =>
      cases hb : bakePizza pc rnd s.g with
      | none => simp [hp, hb] at h
      | some r =>
        obtain ⟨g1, pc1, e1⟩ := r
        simp only [hp, hb, Option.some.injEq, Prod.mk.injEq] at h
        obtain ⟨rfl, rfl⟩ := h
        have := bakePizza_effect pc rnd s.g g1 pc1 _ hb
        simp only [notify_g]
        refine ⟨fun h1 => by rw [this.1]; exact h1, fun h1 h2 => ?_, this.2.2⟩
        have := this.2.1 h1
        simp_all
  | deliver =>
    simp only [step] at h
    cases hb : deliverPizza s.supplier s.g with
    | none => simp [hb] at h
    | some r =>
      obtain ⟨g1, pc1, e1⟩ := r
      simp only [hb, Option.some.injEq, Prod.mk.injEq] at h
      obtain ⟨rfl, rfl⟩ := h
      have := deliverPizza_effect s.supplier s.g g1 pc1 _ hb
      simp only [notify_g]
      refine ⟨fun h1 => by rw [this.1]; exact h1, fun h1 h2 => ⟨trivial, ?_⟩, ?_⟩
      · by_contra hne
        have := this.2.1 hne
        simp_all
      · rw [this.2.2.2]
        have h3 := this.2.2.1
        by_cases hh : g1.supplierInformed = true
        · simp [h3 hh]
        · simp [hh]
  | sigalrm =>
    simp only [step] at h
    split_ifs at h
    cases h
    simp [supplierSignals]
  | quality rnd =>
    simp only [step] at h
    cases hb : qualityCheck s.quality rnd s.g with
    | none => simp [hb] at h
    | some r =>
      obtain ⟨g1, pc1, e1⟩ := r
      simp only [hb, Option.some.injEq, Prod.mk.injEq] at h
      obtain ⟨rfl, rfl⟩ := h
      have := qualityCheck_effect s.quality rnd s.g g1 pc1 _ hb
      simp only [notify_g]
      refine ⟨fun h1 => by rw [this.1]; exact h1, fun h1 h2 => ?_, ?_⟩
      · simp_all
      · simp [this.2.2, this.2.1]
  | tick =>
    simp only [step] at h
    cases hb : auto_shutdown s.timer s.g with
    | none => simp [hb] at h
    | some r =>
      obtain ⟨g1, pc1, e1⟩ := r
      simp only [hb, Option.some.injEq, Prod.mk.injEq] at h
      obtain ⟨rfl, rfl⟩ := h
      have := auto_shutdown_effect s.timer s.g g1 pc1 _ hb
      simp only [notify_g]
      refine ⟨this.1, fun h1 h2 => ?_, ?_⟩
      · simp_all
      · simp [this.2.2.2, this.2.1]
  | sigterm =>
    simp only [step] at h
    cases h
    simp [supplierSignals]
  | handler i =>
    simp only [step] at h
    cases hp : s.handlers[i]? with
    | none => simp [hp] at h
    | some pc =>
      cases hb : graceful_shutdown pc s.g with
      | none => simp [hp, hb] at h
      | some r =>
        obtain ⟨g1, pc1, e1⟩ := r
        simp only [hp, hb, Option.some.injEq, Prod.mk.injEq] at h
        obtain ⟨rfl, rfl⟩ := h
        have := graceful_shutdown_effect pc s.g g1 pc1 _ hb
        simp only [notify_g]
        refine ⟨this.1, fun h1 h2 => ?_, ?_⟩
        · simp_all
        · simp [this.2.2.2, this.2.1]
  | spuriousPizzaiolo i =>
    simp only [step] at h
    split at h
    · cases h; simp [supplierSignals]
    · simp at h
  | spuriousSupplier =>
    simp only [step] at h
    split_ifs at h
    cases h
    simp [supplierSignals]

/-- Only a step of a `bakePizza` thread sets `supplierInformed`. -/
theorem step_informs (a : Action) (s s1 : Sys) (es : List Event)
    (h : step a s = some (s1, es)) (h0 : s.g.supplierInformed = false)
    (h1 : s1.g.supplierInformed = true) : ∃ i rnd, a = .bake i rnd := by
  cases a with
  | bake i rnd => exact ⟨i, rnd, rfl⟩
  | deliver =>
    simp only [step] at h
    cases hb : deliverPizza s.supplier s.g with
    | none => simp [hb] at h
    | some r =>
      obtain ⟨g1, pc1, e1⟩ := r
      simp only [hb, Option.some.injEq, Prod.mk.injEq] at h
      obtain ⟨rfl, rfl⟩ := h
      have := (deliverPizza_effect s.supplier s.g g1 pc1 _ hb).2.2.1 h1
      simp_all
  | sigalrm =>
    simp only [step] at h
    split_ifs at h
    cases h
    simp_all
  | quality rnd =>
    simp only [step] at h
    cases hb : qualityCheck s.quality rnd s.g with
    | none => simp [hb] at h
    | some r =>
      obtain ⟨g1, pc1, e1⟩ := r
      simp only [hb, Option.some.injEq, Prod.mk.injEq] at h
      obtain ⟨rfl, rfl⟩ := h
      have := (qualityCheck_effect s.quality rnd s.g g1 pc1 _ hb).2.1
      simp_all [notify_g]
  | tick =>
    simp only [step] at h
    cases hb : auto_shutdown s.timer s.g with
    | none => simp [hb] at h
    | some r =>
      obtain ⟨g1, pc1, e1⟩ := r
      simp only [hb, Option.some.injEq, Prod.mk.injEq] at h
      obtain ⟨rfl, rfl⟩ := h
      have := (auto_shutdown_effect s.timer s.g g1 pc1 _ hb).2.1
      simp_all [notify_g]
  | sigterm =>
    simp only [step] at h
    cases h
    simp_all
  | handler i =>
    simp only [step] at h
    cases hp : s.handlers[i]? with
    | none => simp [hp] at h
    | some pc =>
      cases hb : graceful_shutdown pc s.g with
      | none => simp [hp, hb] at h
      | some r =>
        obtain ⟨g1, pc1, e1⟩ := r
        simp only [hp, hb, Option.some.injEq, Prod.mk.injEq] at h
        obtain ⟨rfl, rfl⟩ := h
        have := (graceful_shutdown_effect pc s.g g1 pc1 _ hb).2.1
        simp_all [notify_g]
  | spuriousPizzaiolo i =>
    simp only [step] at h
    split at h
    · cases h; simp_all
    · simp at h
  | spuriousSupplier =>
    simp only [step] at h
    split_ifs at h
    cases h
    simp_all

/-- Signals of two traces in a row add up. -/
theorem supplierSignals_append (a b : List Event) :
    supplierSignals (a ++ b) = supplierSignals a + supplierSignals b := by
  simp [supplierSignals]

/-- While `supplierInformed` stays set, a run issues no signal on `supplier_cond`. -/
theorem exec_informed_quiet (as : List Action) :
    ∀ (s1 s2 : Sys) (es : List Event), exec as s1 = some (s2, es) →
      (∀ n, n ≤ as.length →
        (exec (as.take n) s1).map (fun r => r.1.g.supplierInformed) = some true) →
      supplierSignals es = 0 := by
  induction as with
  | nil =>
    intro s1 s2 es h _
    simp only [exec, Option.some.injEq, Prod.mk.injEq] at h
    rw [← h.2]
    rfl
  | cons a as ih =>
    intro s1 s2 es h hinf
    have hs1 : s1.g.supplierInformed = true := by
      have := hinf 0 (Nat.zero_le _)
      simpa [exec] using this
    simp only [exec] at h
    cases hst : step a s1 with
    | none => simp [hst] at h
    | some r =>
      obtain ⟨sm, em⟩ := r
      cases hex : exec as sm with
      | none => simp [hst, hex] at h
      | some r2 =>
        obtain ⟨sf, ef⟩ := r2
        simp only [hst, hex, Option.some.injEq, Prod.mk.injEq] at h
        obtain ⟨rfl, rfl⟩ := h
        have hsm : ∀ n, n ≤ as.length →
            (exec (as.take n) sm).map (fun r => r.1.g.supplierInformed) = some true := by
          intro n hn
          have := hinf (n + 1) (by simp; omega)
          simp only [List.take_succ_cons, exec, hst] at this
          cases hq : exec (List.take n as) sm with
          | none => simp [hq] at this
          | some q => simpa [hq] using this
        have hquiet := ih sm sf ef hex hsm
        have hst2 := (step_flags a s1 sm em hst).2.2
        rw [supplierSignals_append, hquiet, hst2]
        simp [hs1]

/-! ## The capacity bound, step by step -/

/-- A step of `bakePizza` keeps the total at or below the capacity. -/
theorem bakePizza_total (pc : BakePC) (rnd : Nat) (g g1 : Globals) (pc1 : BakePC)
    (es : List Event) (h : bakePizza pc rnd g = some (g1, pc1, es))
    (hle : total g ≤ COUNTER_MAX_CAPACITY) : total g1 ≤ COUNTER_MAX_CAPACITY := by
  cases pc with
  | critical k =>
    by_cases hlt : total g < COUNTER_MAX_CAPACITY
    · obtain ⟨g2, e2, he, ht⟩ := bake_critical_total g k rnd hlt
      rw [he] at h
      simp only [Option.some.injEq, Prod.mk.injEq] at h
      rw [← h.1, ht]
      omega
    · rw [bake_critical_rejected g k rnd hlt] at h
      simp only [Option.some.injEq, Prod.mk.injEq] at h
      rw [← h.1]
      exact hle
  | loopHead =>
    simp only [bakePizza] at h
    split_ifs at h <;> cases h <;> exact hle
  | counterFull =>
    simp only [bakePizza] at h
    split_ifs at h <;> cases h <;> exact hle
  | woken =>
    simp only [bakePizza] at h
    split_ifs at h <;> cases h <;> exact hle
  | waiting => simp [bakePizza] at h
  | finished => simp [bakePizza] at h

/-- A step of `deliverPizza` keeps the total at or below the capacity. -/
theorem deliverPizza_total (pc : DeliverPC) (g g1 : Globals) (pc1 : DeliverPC)
    (es : List Event) (h : deliverPizza pc g = some (g1, pc1, es))
    (hle : total g ≤ COUNTER_MAX_CAPACITY) : total g1 ≤ COUNTER_MAX_CAPACITY := by
  cases pc <;> simp only [deliverPizza] at h
  all_goals (try split_ifs at h)
  all_goals (try cases h)
  all_goals (first | exact hle | simp [total, COUNTER_MAX_CAPACITY])

/-- A step of `qualityCheck` computes non-negative amounts and keeps the total
at or below the capacity. -/
theorem qualityCheck_total (pc : QualityPC) (rnd : Nat) (g g1 : Globals) (pc1 : QualityPC)
    (es : List Event) (h : qualityCheck pc rnd g = some (g1, pc1, es))
    (hle : total g ≤ COUNTER_MAX_CAPACITY) (hq : amountsNonneg pc) :
    total g1 ≤ COUNTER_MAX_CAPACITY ∧ amountsNonneg pc1 := by
  cases pc with
  | entry =>
    simp only [qualityCheck, Option.map_eq_some', cRem] at h
    obtain ⟨r, hr, h⟩ := h
    split_ifs at hr
    cases hr
    cases h
    exact ⟨hle, Int.tmod_nonneg _ (Int.ofNat_nonneg rnd)⟩
  | sampledMargherita m =>
    simp only [qualityCheck, Option.map_eq_some', cRem] at h
    obtain ⟨r, hr, h⟩ := h
    split_ifs at hr
    cases hr
    cases h
    exact ⟨hle, hq, Int.tmod_nonneg _ (Int.ofNat_nonneg rnd)⟩
  | sampled m n =>
    simp only [qualityCheck] at h
    cases h
    simp only [amountsNonneg] at hq
    refine ⟨?_, trivial⟩
    simp only [total] at hle ⊢
    omega
  | subtracted m n =>
    simp only [qualityCheck] at h
    cases h
    exact ⟨hle, trivial⟩
  | returned => simp [qualityCheck] at h

/-- Every step of the program keeps the total at or below the capacity, and
keeps the amounts of a running quality check non-negative. -/
theorem step_capacity (a : Action) (s s1 : Sys) (es : List Event)
    (h : step a s = some (s1, es))
    (hle : total s.g ≤ COUNTER_MAX_CAPACITY) (hq : amountsNonneg s.quality) :
    total s1.g ≤ COUNTER_MAX_CAPACITY ∧ amountsNonneg s1.quality := by
  cases a with
  | bake i rnd =>
    simp only [step] at h
    cases hp : s.pizzaioli[i]? with
    | none => simp [hp] at h
    | some pc =>
      cases hb : bakePizza pc rnd s.g with
      | none => simp [hp, hb] at h
      | some r =>
        obtain ⟨g1, pc1, e1⟩ := r
        simp only [hp, hb, Option.some.injEq, Prod.mk.injEq] at h
        obtain ⟨rfl, rfl⟩ := h
        exact ⟨bakePizza_total pc rnd s.g g1 pc1 _ hb hle, hq⟩
  | deliver =>
    simp only [step] at h
    cases hb : deliverPizza s.supplier s.g with
    | none => simp [hb] at h
    | some r =>
      obtain ⟨g1, pc1, e1⟩ := r
      simp only [hb, Option.some.injEq, Prod.mk.injEq] at h
      obtain ⟨rfl, rfl⟩ := h
      exact ⟨deliverPizza_total s.supplier s.g g1 pc1 _ hb hle, hq⟩
  | sigalrm =>
    simp only [step] at h
    split_ifs at h
    cases h
    exact ⟨hle, trivial⟩
  | quality rnd =>
    simp only [step] at h
    cases hb : qualityCheck s.quality rnd s.g with
    | none => simp [hb] at h
    | some r =>
      obtain ⟨g1, pc1, e1⟩ := r
      simp only [hb, Option.some.injEq, Prod.mk.injEq] at h
      obtain ⟨rfl, rfl⟩ := h
      exact qualityCheck_total s.quality rnd s.g g1 pc1 _ hb hle hq
  | tick =>
    simp only [step] at h
    cases hb : auto_shutdown s.timer s.g with
    | none => simp [hb] at h
    | some r =>
      obtain ⟨g1, pc1, e1⟩ := r
      simp only [hb, Option.some.injEq, Prod.mk.injEq] at h
      obtain ⟨rfl, rfl⟩ := h
      have := (auto_shutdown_effect s.timer s.g g1 pc1 _ hb).2.2.1
      refine ⟨?_, hq⟩
      simp only [total, notify_g, this]
      exact hle
  | sigterm =>
    simp only [step] at h
    cases h
    exact ⟨hle, hq⟩
  | handler i =>
    simp only [step] at h
    cases hp : s.handlers[i]? with
    | none => simp [hp] at h
    | some pc =>
      cases hb : graceful_shutdown pc s.g with
      | none => simp [hp, hb] at h
      | some r =>
        obtain ⟨g1, pc1, e1⟩ := r
        simp only [hp, hb, Option.some.injEq, Prod.mk.injEq] at h
        obtain ⟨rfl, rfl⟩ := h
        have := (graceful_shutdown_effect pc s.g g1 pc1 _ hb).2.2.1
        refine ⟨?_, hq⟩
        simp only [total, notify_g, this]
        exact hle
  | spuriousPizzaiolo i =>
    simp only [step] at h
    split at h
    · cases h; exact ⟨hle, hq⟩
    · simp at h
  | spuriousSupplier =>
    simp only [step] at h
    split_ifs at h
    cases h
    exact ⟨hle, hq⟩

/-- Every run keeps the total at or below the capacity. -/
theorem exec_capacity (as : List Action) :
    ∀ (s s2 : Sys) (es : List Event), exec as s = some (s2, es) →
      total s.g ≤ COUNTER_MAX_CAPACITY → amountsNonneg s.quality →
      total s2.g ≤ COUNTER_MAX_CAPACITY ∧ amountsNonneg s2.quality := by
  induction as with
  | nil =>
    intro s s2 es h hle hq
    simp only [exec, Option.some.injEq, Prod.mk.injEq] at h
    rw [← h.1]
    exact ⟨hle, hq⟩
  | cons a as ih =>
    intro s s2 es h hle hq
    simp only [exec] at h
    cases hst : step a s with
    | none => simp [hst] at h
    | some r =>
      obtain ⟨sm, em⟩ := r
      cases hex : exec as sm with
      | none => simp [hst, hex] at h
      | some r2 =>
        obtain ⟨sf, ef⟩ := r2
        simp only [hst, hex, Option.some.injEq, Prod.mk.injEq] at h
        obtain ⟨rfl, rfl⟩ := h
        have := step_capacity a s sm em hst hle hq
        exact ih sm sf ef hex this.1 this.2

/-- The upper half of the capacity invariant holds in every reachable state. -/
theorem reachable_total_le (s : Sys) (h : Reachable s) : total s.g ≤ COUNTER_MAX_CAPACITY := by
  obtain ⟨as, es, hex⟩ := h
  exact (exec_capacity as init s es hex (by decide) trivial).1

/-! ## Locks held along the traces of a task -/

/-- Locks held after two traces in a row. -/
theorem heldFinal_append (h : List Mutex) (a b : List Event) :
    heldFinal h (a ++ b) = heldFinal (heldFinal h a) b := by
  simp [heldFinal, List.foldl_append]

/-- Points of two traces in a row. -/
theorem heldPoints_append (a b : List Event) :
    ∀ h : List Mutex, heldPoints h (a ++ b) = heldPoints h a ++ heldPoints (heldFinal h a) b := by
  induction a with
  | nil => intro h; rfl
  | cons e es ih =>
    intro h
    simp [heldPoints, ih, heldFinal]

/-- Nested acquisitions of two traces in a row. -/
theorem nestings_append (a b : List Event) :
    ∀ h : List Mutex, nestings h (a ++ b) = nestings h a ++ nestings (heldFinal h a) b := by
  induction a with
  | nil => intro h; rfl
  | cons e es ih =>
    intro h
    simp [nestings, ih, heldFinal]

/-- What holds of the operations of every single step, started with no lock
held, holds of every trace of the task. -/
theorem taskTrace_held {PC : Type}
    (step : PC → Nat → Globals → Option (Globals × PC × List Event)) (wake : PC → PC)
    (P : Event × List Mutex → Prop) (Q : Mutex × Mutex → Prop)
    (hstep : ∀ pc rnd g g1 pc1 es, step pc rnd g = some (g1, pc1, es) →
      heldFinal [] es = [] ∧ (∀ p ∈ heldPoints [] es, P p) ∧ (∀ q ∈ nestings [] es, Q q))
    (inputs : List (Nat × Globals)) :
    ∀ pc, heldFinal [] (taskTrace step wake pc inputs) = [] ∧
      (∀ p ∈ heldPoints [] (taskTrace step wake pc inputs), P p) ∧
      (∀ q ∈ nestings [] (taskTrace step wake pc inputs), Q q) := by
  induction inputs with
  | nil =>
    intro pc
    simp [taskTrace, heldFinal, heldPoints, nestings]
  | cons x rest ih =>
    intro pc
    obtain ⟨rnd, g⟩ := x
    simp only [taskTrace]
    cases hs : step (wake pc) rnd g with
    | none => simp [heldFinal, heldPoints, nestings]
    | some r =>
      obtain ⟨g1, pc1, es⟩ := r
      obtain ⟨hf, hp, hq⟩ := hstep _ _ _ _ _ _ hs
      obtain ⟨ihf, ihp, ihq⟩ := ih pc1
      simp only [heldFinal_append, heldPoints_append, nestings_append, hf, List.mem_append]
      refine ⟨ihf, ?_, ?_⟩
      · intro p hmem
        rcases hmem with hmem | hmem
        · exact hp p hmem
        · exact ihp p hmem
      · intro q hmem
        rcases hmem with hmem | hmem
        · exact hq q hmem
        · exact ihq q hmem

/-- The locks of one step of `bakePizza`: the step ends with none held; it holds
at most one lock, or `supplier_mutex` on top of `counter.mutex`; it signals and
sets `supplierInformed` with both of these held; `pizzaiolo_mutex` is held
alone; the only nested acquisition is `supplier_mutex` under `counter.mutex`. -/
theorem bakePizza_held (pc : BakePC) (rnd : Nat) (g g1 : Globals) (pc1 : BakePC)
    (es : List Event) (h : bakePizza pc rnd g = some (g1, pc1, es)) :
    heldFinal [] es = [] ∧
    (∀ p ∈ heldPoints [] es,
      (p.2.length ≤ 1 ∨ p.2 = [.supplier_mutex, .counter_mutex]) ∧
      (p.1 = .signal .supplier_cond ∨ p.1 = .setSupplierInformed true →
        p.2 = [.supplier_mutex, .counter_mutex]) ∧
      (Mutex.pizzaiolo_mutex ∈ p.2 → p.2 = [.pizzaiolo_mutex])) ∧
    (∀ q ∈ nestings [] es, q = (Mutex.counter_mutex, Mutex.supplier_mutex)) := by
  cases pc <;> simp only [bakePizza] at h
  all_goals (try split_ifs at h)
  all_goals (try cases h)
  all_goals decide

/-- The locks of one step of `deliverPizza`: at most one held, none nested, none
held at the end. -/
theorem deliverPizza_held (pc : DeliverPC) (g g1 : Globals) (pc1 : DeliverPC)
    (es : List Event) (h : deliverPizza pc g = some (g1, pc1, es)) :
    heldFinal [] es = [] ∧ (∀ p ∈ heldPoints [] es, p.2.length ≤ 1) ∧
    (∀ q ∈ nestings [] es, False) := by
  cases pc <;> simp only [deliverPizza] at h
  all_goals (try split_ifs at h)
  all_goals (try cases h)
  all_goals decide

/-- The locks of one step of `qualityCheck`: at most one held, none nested, none
held at the end. -/
theorem qualityCheck_held (pc : QualityPC) (rnd : Nat) (g g1 : Globals) (pc1 : QualityPC)
    (es : List Event) (h : qualityCheck pc rnd g = some (g1, pc1, es)) :
    heldFinal [] es = [] ∧ (∀ p ∈ heldPoints [] es, p.2.length ≤ 1) ∧
    (∀ q ∈ nestings [] es, False) := by
  cases pc <;> simp only [qualityCheck, Option.map_eq_some'] at h
  all_goals (try obtain ⟨r, _, h⟩ := h)
  all_goals (try cases h)
  all_goals decide

/-- The locks of one step of `graceful_shutdown`: at most one held, none nested,
none held at the end. -/
theorem graceful_shutdown_held (pc : ShutdownPC) (g g1 : Globals) (pc1 : ShutdownPC)
    (es : List Event) (h : graceful_shutdown pc g = some (g1, pc1, es)) :
    heldFinal [] es = [] ∧ (∀ p ∈ heldPoints [] es, p.2.length ≤ 1) ∧
    (∀ q ∈ nestings [] es, False) := by
  cases pc <;> simp only [graceful_shutdown] at h
  all_goals (try cases h)
  all_goals decide

/-- The only nested acquisition of the program is `supplier_mutex` under
`counter.mutex`. -/
theorem acquiredWhileHolding_only (a b : Mutex) (h : AcquiredWhileHolding a b) :
    a = .counter_mutex ∧ b = .supplier_mutex := by
  obtain ⟨inputs, h | h | h | h⟩ := h
  · have := (taskTrace_held bakePizza wakePizzaiolo _ _ bakePizza_held inputs
      .loopHead).2.2 (a, b) h
    simpa using this
  · exact ((taskTrace_held (fun pc _ g => deliverPizza pc g) wakeSupplier _ _
      (fun pc _ g g1 pc1 es h => deliverPizza_held pc g g1 pc1 es h) inputs
      .loopHead).2.2 (a, b) h).elim
  · exact ((taskTrace_held qualityCheck id _ _ qualityCheck_held inputs .entry).2.2
      (a, b) h).elim
  · exact ((taskTrace_held (fun pc _ g => graceful_shutdown pc g) id _ _
      (fun pc _ g g1 pc1 es h => graceful_shutdown_held pc g g1 pc1 es h) inputs
      .entry).2.2 (a, b) h).elim

/-! ## The claims -/

/-- C1 (capacity invariant, `0 <= countMargherita + countMarinara <= 30` in
every reachable state).  The upper bound holds in every reachable state.  The
lower bound does not: `qualityCheck` computes the amounts to remove at lines
108-109, before it takes `counter.mutex`; `raceRun` lets `deliverPizza` empty the
counter (from 20 to 0) between that and the subtraction of lines 112-113, and
the counter ends at `(-20, 0)`. -/
theorem C1_capacity_lower_bound_fails :
    (∀ s, Reachable s → total s.g ≤ COUNTER_MAX_CAPACITY) ∧
    (exec fillRun init).map (fun r => (r.1.g.counter, r.1.supplier, r.1.quality))
      = some (⟨20, 0⟩, .pickup, .returned) ∧
    (exec raceRun init).map (fun r => (r.1.g.counter, r.1.supplier, r.1.quality))
      = some (⟨-20, 0⟩, .reset, .subtracted 20 0) ∧
    ∃ s, Reachable s ∧ total s.g < 0 := by
  refine ⟨reachable_total_le, by decide, by decide, ?_⟩
  have h : ∃ r, exec raceRun init = some r ∧ total r.1.g < 0 := by decide
  obtain ⟨r, hr, ht⟩ := h
  exact ⟨r.1, ⟨raceRun, r.2, hr⟩, ht⟩

/-- C2 (the locked add step of `bakePizza`).  For every state of the globals
and every pizza type: if the total is below `COUNTER_MAX_CAPACITY`, the counter
of the chosen kind grows by exactly 1, the other counter is unchanged, the total
grows by 1 and the thread returns to its loop head (accepted); otherwise the
globals are unchanged and the thread goes on to wait (rejected).  From the
counter `(28, 0)` two adds are accepted, with totals 29 and 30, and every add
in the state then reached is rejected and leaves that state as it is. -/
theorem C2_tryAdd (g : Globals) (pizzaType pizzaType2 : Int) (rnd rnd2 : Nat) (sd si : Bool) :
    (if total g < COUNTER_MAX_CAPACITY then
      ∃ g1 es, bakePizza (.critical pizzaType) rnd g = some (g1, .loopHead, es) ∧
        g1.counter.countMargherita
          = g.counter.countMargherita + (if pizzaType = 0 then 1 else 0) ∧
        g1.counter.countMarinara
          = g.counter.countMarinara + (if pizzaType = 0 then 0 else 1) ∧
        total g1 = total g + 1
    else
      bakePizza (.critical pizzaType) rnd g
        = some (g, .counterFull, [.lock .counter_mutex, .unlock .counter_mutex])) ∧
    (∃ g1 g2 e1 e2,
        bakePizza (.critical pizzaType) rnd ⟨⟨28, 0⟩, sd, si⟩ = some (g1, .loopHead, e1) ∧
        total g1 = 29 ∧
        bakePizza (.critical pizzaType2) rnd2 g1 = some (g2, .loopHead, e2) ∧
        total g2 = 30 ∧
        ∀ (pizzaType3 : Int) (rnd3 : Nat),
          bakePizza (.critical pizzaType3) rnd3 g2
            = some (g2, .counterFull, [.lock .counter_mutex, .unlock .counter_mutex])) := by
  refine ⟨?_, ?_⟩
  · by_cases h : total g < COUNTER_MAX_CAPACITY
    · rw [if_pos h]
      have he := bake_critical_accepted g pizzaType rnd h
      refine ⟨_, _, he, rfl, rfl, ?_⟩
      simp only [total]
      split_ifs <;> omega
    · rw [if_neg h]
      exact bake_critical_rejected g pizzaType rnd h
  · have t0 : total ⟨⟨28, 0⟩, sd, si⟩ = 28 := by simp [total]
    have h1 : total ⟨⟨28, 0⟩, sd, si⟩ < COUNTER_MAX_CAPACITY := by
      simp [t0, COUNTER_MAX_CAPACITY]
    obtain ⟨g1, e1, he1, t1⟩ := bake_critical_total _ pizzaType rnd h1
    have h2 : total g1 < COUNTER_MAX_CAPACITY := by simp [t1, t0, COUNTER_MAX_CAPACITY]
    obtain ⟨g2, e2, he2, t2⟩ := bake_critical_total g1 pizzaType2 rnd2 h2
    have h3 : ¬ total g2 < COUNTER_MAX_CAPACITY := by simp [t2, t1, t0, COUNTER_MAX_CAPACITY]
    exact ⟨g1, g2, e1, e2, he1, by omega, he2, by omega,
      fun k r => bake_critical_rejected g2 k r h3⟩

/-- C3 (at most one notification).  Take any step that sets `supplierInformed`
(it was clear in `s`, the step leads to `s1`), and any run `as` from `s1`
during which `supplierInformed` stays set, that is, up to its reset.  Then the
step is one of a `bakePizza` thread and issues exactly one signal on
`supplier_cond`; the run issues none, however many adds it contains; the only
step that can clear the flag afterwards is line 94 of `deliverPizza`, and it
issues no signal either: one signal between the setting and the reset.
Moreover an accepted add signals if and only if its new total is at least
`SUPPLIER_TRIGGER_THRESHOLD` and `supplierInformed` was clear, and then
`supplierInformed` is set. -/
theorem C3_one_signal (s s1 s2 : Sys) (a : Action) (as : List Action) (e1 es : List Event)
    (h0 : s.g.supplierInformed = false)
    (h1 : step a s = some (s1, e1))
    (hrun : exec as s1 = some (s2, es))
    (hinf : ∀ n, n ≤ as.length →
      (exec (as.take n) s1).map (fun r => r.1.g.supplierInformed) = some true) :
    (∃ i rnd, a = .bake i rnd) ∧
    supplierSignals e1 = 1 ∧ supplierSignals es = 0 ∧ supplierSignals (e1 ++ es) = 1 ∧
    (∀ a2 s3 e3, step a2 s2 = some (s3, e3) → s3.g.supplierInformed = false →
      (a2 = .deliver ∧ s2.supplier = .reset) ∧ supplierSignals (e1 ++ es ++ e3) = 1) ∧
    (∀ (g : Globals) (pizzaType : Int) (rnd : Nat), total g < COUNTER_MAX_CAPACITY →
      ∃ g1 ev, bakePizza (.critical pizzaType) rnd g = some (g1, .loopHead, ev) ∧
        (Event.signal .supplier_cond ∈ ev ↔
          (SUPPLIER_TRIGGER_THRESHOLD ≤ total g1 ∧ g.supplierInformed = false)) ∧
        (Event.signal .supplier_cond ∈ ev → g1.supplierInformed = true) ∧
        supplierSignals ev ≤ 1) := by
  have hs1 : s1.g.supplierInformed = true := by
    have := hinf 0 (Nat.zero_le _)
    simpa [exec] using this
  have hs2 : s2.g.supplierInformed = true := by
    have := hinf as.length (Nat.le_refl _)
    simpa [hrun] using this
  have hq := exec_informed_quiet as s1 s2 es hrun hinf
  have he1 : supplierSignals e1 = 1 := by
    rw [(step_flags a s s1 e1 h1).2.2]
    simp [h0, hs1]
  refine ⟨step_informs a s s1 e1 h1 h0 hs1, he1, hq, ?_, ?_, ?_⟩
  · rw [supplierSignals_append, he1, hq]
  · intro a2 s3 e3 hst h3
    have hf := step_flags a2 s2 s3 e3 hst
    refine ⟨hf.2.1 hs2 h3, ?_⟩
    rw [supplierSignals_append, supplierSignals_append, he1, hq, hf.2.2]
    simp [h3]
  · intro g pizzaType rnd hlt
    have he := bake_critical_accepted g pizzaType rnd hlt
    refine ⟨_, _, he, ?_, ?_, ?_⟩
    · have ht : total
          { counter :=
              { countMargherita := g.counter.countMargherita + (if pizzaType = 0 then 1 else 0)
                countMarinara := g.counter.countMarinara + (if pizzaType = 0 then 0 else 1) }
            shutdownFlag := g.shutdownFlag
            supplierInformed :=
              g.supplierInformed || decide (SUPPLIER_TRIGGER_THRESHOLD ≤ total g + 1) }
          = total g + 1 := by
        simp only [total]
        split_ifs <;> omega
      rw [ht]
      by_cases h20 : SUPPLIER_TRIGGER_THRESHOLD ≤ total g + 1 <;>
        cases hsi : g.supplierInformed <;> simp [h20]
    · by_cases h20 : SUPPLIER_TRIGGER_THRESHOLD ≤ total g + 1 <;>
        cases hsi : g.supplierInformed <;> simp [h20]
    · by_cases h20 : SUPPLIER_TRIGGER_THRESHOLD ≤ total g + 1 <;>
        cases hsi : g.supplierInformed <;> simp [h20, supplierSignals]

/-- Witness of C3: `beforeSignalRun` reaches `beforeSignal` (19 pizzas, flag
clear); thread 1 places the twentieth and signals; in `epochRun` two more pizzas
are placed and the supplier empties the counter, with the flag set throughout;
one signal in all. -/
theorem C3_one_signal_witness :
    (exec beforeSignalRun init).map Prod.fst = some beforeSignal ∧
    step (.bake 1 0) beforeSignal = some (afterSignal,
      [.lock .counter_mutex, .lock .supplier_mutex, .signal .supplier_cond,
       .setSupplierInformed true, .unlock .supplier_mutex, .unlock .counter_mutex]) ∧
    ∃ r, exec epochRun afterSignal = some r ∧ r.1.g.counter = ⟨0, 0⟩ ∧ r.1.supplier = .reset ∧
      supplierSignals
        ([.lock .counter_mutex, .lock .supplier_mutex, .signal .supplier_cond,
          .setSupplierInformed true, .unlock .supplier_mutex, .unlock .counter_mutex] ++ r.2)
        = 1 := by
  refine ⟨by decide, by decide, ?_⟩
  have h : ∃ r, exec epochRun afterSignal = some r ∧ r.1.g.counter = ⟨0, 0⟩ ∧
      r.1.supplier = .reset := by decide
  obtain ⟨r, hr, hc, hs⟩ := h
  exact ⟨r, hr, hc, hs,
    (C3_one_signal beforeSignal afterSignal r.1 (.bake 1 0) epochRun _ r.2 rfl (by decide) hr
      (by decide)).2.2.2.1⟩

/-- C4 (bounds of the quality reduction: one `qualityCheck` call leaves each
counter at its pre-call value minus the amount removed, and non-negative).
The call of `interleavedCheckRun` is entered with the counter at `(20, 0)`, both
counters non-negative, and computes the amounts `(20, 0)`, within the pre-call
values (lines 108-109, outside the lock); `deliverPizza` empties the counter
before the call reaches line 111; the call subtracts and returns with the
counter at `(-20, 0)`, which is neither `(20 - 20, 0 - 0)` nor non-negative.
What the code does guarantee: when no step of another task falls between the
four steps of the call, the amounts lie between 0 and the pre-call values, the
counters end at pre-call value minus amount, non-negative, and the broadcast
on `pizzaiolo_cond` follows; so `(10, 5)` with removals `(3, 5)` gives
`(7, 0)`. -/
theorem C4_interleaved_check_goes_negative :
    (exec fillRun init).map (fun r => (r.1.g.counter, r.1.quality))
      = some (⟨20, 0⟩, .returned) ∧
    (exec (fillRun ++ [.sigalrm, .quality 20, .quality 0]) init).map
        (fun r => (r.1.g.counter, r.1.quality))
      = some (⟨20, 0⟩, .sampled 20 0) ∧
    (exec interleavedCheckRun init).map (fun r => (r.1.g.counter, r.1.quality))
      = some (⟨-20, 0⟩, .returned) ∧
    (∀ (s : Sys) (rnd1 rnd2 : Nat), s.quality = .entry →
      0 ≤ s.g.counter.countMargherita → 0 ≤ s.g.counter.countMarinara →
      ∃ m n : Int,
        0 ≤ m ∧ m ≤ s.g.counter.countMargherita ∧ 0 ≤ n ∧ n ≤ s.g.counter.countMarinara ∧
        m = Int.tmod rnd1 (s.g.counter.countMargherita + 1) ∧
        n = Int.tmod rnd2 (s.g.counter.countMarinara + 1) ∧
        (exec (uninterruptedCheck rnd1 rnd2) s).map (fun r => (r.1.g, r.1.quality, r.2)) =
          some ({ s.g with counter :=
                    { countMargherita := s.g.counter.countMargherita - m
                      countMarinara := s.g.counter.countMarinara - n } },
                .returned,
                [.lock .counter_mutex, .unlock .counter_mutex, .lock .pizzaiolo_mutex,
                 .broadcast .pizzaiolo_cond, .unlock .pizzaiolo_mutex, .alarm 5])) ∧
    (exec (uninterruptedCheck 3 5)
        { init with g := ⟨⟨10, 5⟩, false, false⟩, quality := .entry }).map
        (fun r => (r.1.g.counter, r.1.quality))
      = some (⟨7, 0⟩, .returned) := by
  refine ⟨by decide, by decide, by decide, ?_, by decide⟩
  intro s rnd1 rnd2 hq hM hN
  obtain ⟨m, hm, hm0, hm1⟩ := cRem_of_nonneg rnd1 _ hM
  obtain ⟨n, hn, hn0, hn1⟩ := cRem_of_nonneg rnd2 _ hN
  have hm2 : m = Int.tmod rnd1 (s.g.counter.countMargherita + 1) := by
    simp only [cRem] at hm
    split_ifs at hm
    exact (Option.some.inj hm).symm
  have hn2 : n = Int.tmod rnd2 (s.g.counter.countMarinara + 1) := by
    simp only [cRem] at hn
    split_ifs at hn
    exact (Option.some.inj hn).symm
  refine ⟨m, n, hm0, hm1, hn0, hn1, hm2, hn2, ?_⟩
  simp [uninterruptedCheck, exec, step, qualityCheck, hq, hm, hn, notify]

/-- C5 (drain).  When `deliverPizza` has been woken and finds `shutdownFlag`
clear at line 85, it goes on to the drain; the drain sets both counters to 0
whatever they were; the next step clears `supplierInformed`; the next one
broadcasts on `pizzaiolo_cond`; this holds whatever the other tasks do between
these steps.  Run in a row from the wake-up, the five steps end with the
counter `(0, 0)`, `supplierInformed` clear, and the operations in that order. -/
theorem C5_drain (g : Globals) (h : g.shutdownFlag = false) :
    deliverPizza .called g = some (g, .pickup, []) ∧
    (∀ g1 : Globals, deliverPizza .pickup g1 =
      some ({ g1 with counter := ⟨0, 0⟩ }, .reset,
        [.lock .counter_mutex, .unlock .counter_mutex])) ∧
    (∀ g2 : Globals, deliverPizza .reset g2 =
      some ({ g2 with supplierInformed := false }, .release, [.setSupplierInformed false])) ∧
    (∀ g3 : Globals, deliverPizza .release g3 =
      some (g3, .loopHead,
        [.lock .pizzaiolo_mutex, .broadcast .pizzaiolo_cond, .unlock .pizzaiolo_mutex])) ∧
    deliverPizzaSteps 5 .woken g =
      some ({ counter := ⟨0, 0⟩, shutdownFlag := false, supplierInformed := false }, .loopHead,
        [.waitEnd .supplier_cond .supplier_mutex, .unlock .supplier_mutex,
         .lock .counter_mutex, .unlock .counter_mutex, .setSupplierInformed false,
         .lock .pizzaiolo_mutex, .broadcast .pizzaiolo_cond, .unlock .pizzaiolo_mutex]) := by
  obtain ⟨c, sd, si⟩ := g
  simp only at h
  subst h
  refine ⟨rfl, fun _ => rfl, fun _ => rfl, fun _ => rfl, rfl⟩

/-- Witness of C5: the counter `(17, 9)`, `supplierInformed` set. -/
theorem C5_drain_witness :
    deliverPizzaSteps 5 .woken ⟨⟨17, 9⟩, false, true⟩ =
      some ({ counter := ⟨0, 0⟩, shutdownFlag := false, supplierInformed := false }, .loopHead,
        [.waitEnd .supplier_cond .supplier_mutex, .unlock .supplier_mutex,
         .lock .counter_mutex, .unlock .counter_mutex, .setSupplierInformed false,
         .lock .pizzaiolo_mutex, .broadcast .pizzaiolo_cond, .unlock .pizzaiolo_mutex]) :=
  (C5_drain ⟨⟨17, 9⟩, false, true⟩ rfl).2.2.2.2

/-- C6 (shutdown of the producers: a woken producer exits whatever the total).
With `shutdownFlag` set and the counter at `(30, 0)`, a `bakePizza` thread
that returns from `pthread_cond_wait` tests only the total (line 64) and waits
again.  `shutdownRun` reaches that situation: thread 1 has been woken by the
broadcast of `graceful_shutdown`, and its next step parks it again.  The same
happens in every state with the flag set and the total at or above the
capacity.  When the total is below the capacity the woken thread does leave its
loop without a further add. -/
theorem C6_woken_producer_waits_again :
    bakePizza .woken 0 ⟨⟨30, 0⟩, true, true⟩ =
      some (⟨⟨30, 0⟩, true, true⟩, .waiting,
        [.waitEnd .pizzaiolo_cond .pizzaiolo_mutex,
         .waitBegin .pizzaiolo_cond .pizzaiolo_mutex]) ∧
    (exec shutdownRun init).map (fun r => (r.1.g, r.1.pizzaioli[1]?, r.1.supplier))
      = some (⟨⟨30, 0⟩, true, true⟩, some .woken, .pickup) ∧
    (exec (shutdownRun ++ [.bake 1 0]) init).map
        (fun r => (r.1.g, r.1.pizzaioli[1]?, r.1.supplier))
      = some (⟨⟨30, 0⟩, true, true⟩, some .waiting, .pickup) ∧
    (∀ (c : counter_t) (si : Bool) (rnd : Nat),
      COUNTER_MAX_CAPACITY ≤ c.countMargherita + c.countMarinara →
      bakePizza .woken rnd ⟨c, true, si⟩ =
        some (⟨c, true, si⟩, .waiting,
          [.waitEnd .pizzaiolo_cond .pizzaiolo_mutex,
           .waitBegin .pizzaiolo_cond .pizzaiolo_mutex])) ∧
    (∀ (c : counter_t) (si : Bool) (rnd : Nat),
      c.countMargherita + c.countMarinara < COUNTER_MAX_CAPACITY →
      bakePizza .woken rnd ⟨c, true, si⟩ =
        some (⟨c, true, si⟩, .loopHead,
          [.waitEnd .pizzaiolo_cond .pizzaiolo_mutex, .unlock .pizzaiolo_mutex]) ∧
      bakePizza .loopHead rnd ⟨c, true, si⟩ = some (⟨c, true, si⟩, .finished, [])) := by
  refine ⟨by decide, by decide, by decide, ?_, ?_⟩
  · intro c si rnd hge
    have hn : c.countMargherita + c.countMarinara ≥ COUNTER_MAX_CAPACITY := hge
    simp [bakePizza, hn]
  · intro c si rnd hlt
    have hn : ¬ c.countMargherita + c.countMarinara ≥ COUNTER_MAX_CAPACITY := by omega
    exact ⟨by simp [bakePizza, hn], by simp [bakePizza]⟩

/-- C7, as the claim states it, fails: in a state with `shutdownFlag` set, a
call of `graceful_shutdown` writes the flag and broadcasts on both condition
variables again. -/
theorem C7_counterexample :
    gracefulShutdownCall ⟨⟨0, 0⟩, true, false⟩ =
      some (⟨⟨0, 0⟩, true, false⟩,
        [.setShutdownFlag, .lock .pizzaiolo_mutex, .broadcast .pizzaiolo_cond,
         .unlock .pizzaiolo_mutex, .lock .supplier_mutex, .broadcast .supplier_cond,
         .unlock .supplier_mutex]) ∧
    ¬ (∀ g : Globals, g.shutdownFlag = true → gracefulShutdownCall g = some (g, [])) := by
  refine ⟨by decide, fun h => ?_⟩
  have := h ⟨⟨0, 0⟩, true, false⟩ rfl
  revert this
  decide

/-- C7, amended (shutdown is idempotent on the state).  In every state
`graceful_shutdown` sets `shutdownFlag` and broadcasts on `pizzaiolo_cond`, then
on `supplier_cond`.  When the flag is already set the call changes no state,
but it performs the same operations again.  `auto_shutdown`, by contrast,
returns without any operation when it finds the flag set (line 145).  No step
of any task clears the flag. -/
theorem C7_shutdown_repeated (g : Globals) :
    gracefulShutdownCall g =
      some ({ g with shutdownFlag := true },
        [.setShutdownFlag, .lock .pizzaiolo_mutex, .broadcast .pizzaiolo_cond,
         .unlock .pizzaiolo_mutex, .lock .supplier_mutex, .broadcast .supplier_cond,
         .unlock .supplier_mutex]) ∧
    (g.shutdownFlag = true →
      gracefulShutdownCall g =
        some (g,
          [.setShutdownFlag, .lock .pizzaiolo_mutex, .broadcast .pizzaiolo_cond,
           .unlock .pizzaiolo_mutex, .lock .supplier_mutex, .broadcast .supplier_cond,
           .unlock .supplier_mutex])) ∧
    (∀ timer : Int, 0 < timer → g.shutdownFlag = true →
      auto_shutdown (.timing timer) g = some (g, .returned, [])) ∧
    (∀ (a : Action) (s s1 : Sys) (es : List Event), s.g.shutdownFlag = true →
      step a s = some (s1, es) → s1.g.shutdownFlag = true) := by
  refine ⟨rfl, ?_, ?_, ?_⟩
  · intro h
    obtain ⟨c, sd, si⟩ := g
    simp only at h
    subst h
    rfl
  · intro timer ht h
    simp [auto_shutdown, ht, h]
  · intro a s s1 es h hst
    exact (step_flags a s s1 es hst).1 h

/-- Witness of C7 amended: a state with the flag set, the counter `(3, 4)`. -/
theorem C7_shutdown_repeated_witness :
    gracefulShutdownCall ⟨⟨3, 4⟩, true, true⟩ =
        some (⟨⟨3, 4⟩, true, true⟩,
          [.setShutdownFlag, .lock .pizzaiolo_mutex, .broadcast .pizzaiolo_cond,
           .unlock .pizzaiolo_mutex, .lock .supplier_mutex, .broadcast .supplier_cond,
           .unlock .supplier_mutex]) ∧
    auto_shutdown (.timing 7) ⟨⟨3, 4⟩, true, true⟩ = some (⟨⟨3, 4⟩, true, true⟩, .returned, []) :=
  ⟨(C7_shutdown_repeated ⟨⟨3, 4⟩, true, true⟩).2.1 rfl,
   (C7_shutdown_repeated ⟨⟨3, 4⟩, true, true⟩).2.2.1 7 (by decide) rfl⟩

/-- C8 (the wait of the consumer re-checks its predicate).  `spuriousRun`
reaches a state where `pthread_cond_wait` of `deliverPizza` returns with
`supplierInformed` and `shutdownFlag` both clear and the counter at `(5, 3)`.
The thread does not test `supplierInformed`: three steps later the counter is
`(0, 0)`, and the full turn of the loop drains, resets and broadcasts before it
waits again.  The same happens from every counter.  With `shutdownFlag` set the
woken thread does exit without draining. -/
theorem C8_spurious_wake_drains :
    (exec spuriousRun init).map (fun r => (r.1.g, r.1.supplier))
      = some (⟨⟨5, 3⟩, false, false⟩, .woken) ∧
    (exec (spuriousRun ++ [.deliver, .deliver, .deliver]) init).map
        (fun r => (r.1.g, r.1.supplier))
      = some (⟨⟨0, 0⟩, false, false⟩, .reset) ∧
    deliverPizzaSteps 7 .woken ⟨⟨5, 3⟩, false, false⟩ =
      some (⟨⟨0, 0⟩, false, false⟩, .waiting,
        [.waitEnd .supplier_cond .supplier_mutex, .unlock .supplier_mutex,
         .lock .counter_mutex, .unlock .counter_mutex, .setSupplierInformed false,
         .lock .pizzaiolo_mutex, .broadcast .pizzaiolo_cond, .unlock .pizzaiolo_mutex,
         .lock .supplier_mutex, .waitBegin .supplier_cond .supplier_mutex]) ∧
    (∀ c : counter_t,
      deliverPizzaSteps 3 .woken ⟨c, false, false⟩ =
        some (⟨⟨0, 0⟩, false, false⟩, .reset,
          [.waitEnd .supplier_cond .supplier_mutex, .unlock .supplier_mutex,
           .lock .counter_mutex, .unlock .counter_mutex])) ∧
    (∀ (c : counter_t) (si : Bool),
      deliverPizzaSteps 3 .woken ⟨c, true, si⟩ =
        some (⟨c, true, si⟩, .finished,
          [.waitEnd .supplier_cond .supplier_mutex, .unlock .supplier_mutex])) := by
  refine ⟨by decide, by decide, by decide, fun _ => rfl, fun _ _ => rfl⟩

/-- C10 (the lock order is acyclic).  Over all paths of `bakePizza`,
`deliverPizza`, `qualityCheck` and `graceful_shutdown`, each handler
invocation a task of its own: a lock is acquired while another is held only as
`supplier_mutex` under `counter.mutex`, and that nesting does occur;
`counter.mutex` is never acquired while another lock is held;
`pizzaiolo_mutex` is never held together with another lock; the
acquired-while-holding relation has no cycle. -/
theorem C10_lock_order_acyclic :
    (∀ a b, AcquiredWhileHolding a b → a = .counter_mutex ∧ b = .supplier_mutex) ∧
    AcquiredWhileHolding .counter_mutex .supplier_mutex ∧
    (∀ a, ¬ AcquiredWhileHolding a .counter_mutex) ∧
    (∀ inputs, ∀ p ∈ heldPoints [] (bakePizzaTrace inputs) ++
        heldPoints [] (deliverPizzaTrace inputs) ++ heldPoints [] (qualityCheckTrace inputs) ++
        heldPoints [] (gracefulShutdownTrace inputs),
      Mutex.pizzaiolo_mutex ∈ p.2 → p.2 = [.pizzaiolo_mutex]) ∧
    (∀ a, ¬ Relation.TransGen AcquiredWhileHolding a a) := by
  have one : ∀ (p : Event × List Mutex), p.2.length ≤ 1 → Mutex.pizzaiolo_mutex ∈ p.2 →
      p.2 = [.pizzaiolo_mutex] := by
    intro p hl hm
    obtain ⟨e, l⟩ := p
    match l, hl, hm with
    | [x], _, hm =>
      have hx : Mutex.pizzaiolo_mutex = x := by simpa using hm
      rw [← hx]
  refine ⟨acquiredWhileHolding_only, ?_, ?_, ?_, ?_⟩
  · exact ⟨[(0, ⟨⟨19, 0⟩, false, false⟩), (0, ⟨⟨19, 0⟩, false, false⟩)], Or.inl (by decide)⟩
  · intro a h
    have := (acquiredWhileHolding_only a _ h).2
    exact absurd this (by decide)
  · intro inputs p hp
    simp only [List.mem_append] at hp
    rcases hp with ((hp | hp) | hp) | hp
    · exact ((taskTrace_held bakePizza wakePizzaiolo _ _ bakePizza_held inputs
        .loopHead).2.1 p hp).2.2
    · exact one p ((taskTrace_held (fun pc _ g => deliverPizza pc g) wakeSupplier _ _
        (fun pc _ g g1 pc1 es h => deliverPizza_held pc g g1 pc1 es h) inputs .loopHead).2.1
        p hp)
    · exact one p ((taskTrace_held qualityCheck id _ _ qualityCheck_held inputs .entry).2.1
        p hp)
    · exact one p ((taskTrace_held (fun pc _ g => graceful_shutdown pc g) id _ _
        (fun pc _ g g1 pc1 es h => graceful_shutdown_held pc g g1 pc1 es h) inputs .entry).2.1
        p hp)
  · intro a h
    have hsrc : ∀ x y, Relation.TransGen AcquiredWhileHolding x y → x = .counter_mutex := by
      intro x y hxy
      induction hxy using Relation.TransGen.head_induction_on with
      | base hab => exact (acquiredWhileHolding_only _ _ hab).1
      | ih hab _ _ => exact (acquiredWhileHolding_only _ _ hab).1
    have htgt : ∀ x y, Relation.TransGen AcquiredWhileHolding x y → y = .supplier_mutex := by
      intro x y hxy
      cases hxy with
      | single hab => exact (acquiredWhileHolding_only _ _ hab).2
      | tail _ hab => exact (acquiredWhileHolding_only _ _ hab).2
    have h1 := hsrc a a h
    have h2 := htgt a a h
    rw [h1] at h2
    exact absurd h2 (by decide)

/-- Witness of C10: the one nested acquisition, `supplier_mutex` under
`counter.mutex`, taken from a path of `bakePizza`. -/
theorem C10_lock_order_acyclic_witness :
    Mutex.counter_mutex = .counter_mutex ∧ Mutex.supplier_mutex = .supplier_mutex :=
  C10_lock_order_acyclic.1 .counter_mutex .supplier_mutex C10_lock_order_acyclic.2.1

end Pizza
